import Mathlib

/-!
Shallow embedding of the delivery-guarantee coordinator of
`index.js` (tax_and_taxes_server): the email retry scheduler
(`sendEmailsWithRetry`), the retry ledger (`pendingEmailRetries`), the
expiry sweeper (`cleanupOldRetries`), the cleanup scheduler
(`scheduleFileCleanup`) and the attachment cleaner (`cleanupFiles`).
All times are in milliseconds, as in the source.
-/

/-- `EMAIL_RETRY_CONFIG.maxRetries` (index.js line 111). -/
def maxRetries : Nat := 5

/-- `EMAIL_RETRY_CONFIG.retryDelays` (index.js line 112): 30s, 1m, 2m, 5m, 10m. -/
def retryDelays : List Nat := [30000, 60000, 120000, 300000, 600000]

/-- `EMAIL_RETRY_CONFIG.maxAge` (index.js line 113): 30 minutes. -/
def maxAge : Nat := 30 * 60 * 1000

/-- Period of the sweeper interval `setInterval(cleanupOldRetries, 5 * 60 * 1000)`
(index.js line 230): 5 minutes. -/
def sweepPeriod : Nat := 5 * 60 * 1000

/-- The delay the code computes before retry number `rc + 1` (index.js line 154):
`retryDelays[retryCount] || retryDelays[retryDelays.length - 1]`.
The `||` fallback selects the last table element when the index is out of
range (the table holds no zero entries, so JS falsiness coincides with
out-of-range here). -/
def codeDelay (rc : Nat) : Nat :=
  (retryDelays.get? rc).getD (retryDelays.getLastD 0)

/-- The form fields the coordinator re-renders from (`formData`); only carried. -/
structure FormData where
  name : String
  email : String
deriving DecidableEq, Repr

/-- Payment confirmation data (index.js lines 773-779). -/
structure PaymentInfo where
  paymentId : String
  orderId : String
  amount : String
  transactionId : String
  orderStatus : String
deriving DecidableEq, Repr

/-- An uploaded file as `cleanupFiles` sees it: multer's `file.path` and
`file.originalname`. -/
structure FileRef where
  path : String
  originalname : String
deriving DecidableEq, Repr

/-- One `retryData` record stored in `pendingEmailRetries` (index.js lines 159-167).
`timeoutId` is the handle of the timer armed at line 170. -/
structure RetryData where
  formData : FormData
  files : List FileRef
  clientId : String
  paymentInfo : PaymentInfo
  retryCount : Nat
  createdAt : Nat
  timeoutId : Nat
deriving DecidableEq, Repr

/-- The `pendingEmailRetries` map, keyed by client id. -/
abbrev Ledger := List (String × RetryData)

/-- `pendingEmailRetries.get(cid)`. -/
def lookupL : Ledger → String → Option RetryData
  | [], _ => none
  | (k, v) :: rest, cid => if k = cid then some v else lookupL rest cid

/-- `pendingEmailRetries.delete(cid)`. -/
def eraseL : Ledger → String → Ledger
  | [], _ => []
  | p :: rest, cid => if p.1 = cid then eraseL rest cid else p :: eraseL rest cid

/-- `pendingEmailRetries.set(cid, v)` (replaces any previous binding). -/
def setL (l : Ledger) (cid : String) (v : RetryData) : Ledger :=
  (cid, v) :: eraseL l cid

/-- An armed retry timer: the `setTimeout` callback of index.js lines 170-173,
with the values its closure captured.  `rc` is the `nextRetryCount` the callback
will pass to `sendEmailsWithRetry`. -/
structure RetryTimer where
  tid : Nat
  cid : String
  formData : FormData
  files : List FileRef
  paymentInfo : PaymentInfo
  rc : Nat
  fireAt : Nat
deriving DecidableEq, Repr

/-- Mutable coordinator state: the ledger, the armed retry timers, and a
counter minting fresh timer handles. -/
structure Sys where
  pendingEmailRetries : Ledger
  timers : List RetryTimer
  nextId : Nat
deriving DecidableEq, Repr

/-- Process start: empty ledger, no timers. -/
def sys0 : Sys := ⟨[], [], 0⟩

/-- The object `sendEmailsWithRetry` resolves with.  The JS success return is
`{success: true}`; reading its absent `willRetry` field yields `undefined`,
i.e. falsy, modelled as `false`. -/
structure EmailResult where
  success : Bool
  willRetry : Bool
  retryCount : Option Nat
  nextRetryIn : Option Nat
  error : Option String
deriving DecidableEq, Repr

/-- Everything one invocation of `sendEmailsWithRetry` does: the new state, the
returned result, the `clearTimeout` calls it made, the file list it handed to
`scheduleFileCleanup` (success after a pending retry, line 142), and the file
list it handed to `cleanupFiles` immediately (retry exhaustion, line 190). -/
structure SendOut where
  sys : Sys
  result : EmailResult
  canceledTimers : List Nat
  scheduledCleanup : List FileRef
  cleanedNow : List FileRef
deriving DecidableEq, Repr

/-- One invocation of `sendEmailsWithRetry(formData, files, clientId,
paymentInfo, retryCount)` (index.js lines 117-196).  `ok` is the outcome of the
two sequential `transporter.sendMail` awaits (both must succeed).  `now` is
`Date.now()` during the invocation. -/
def sendEmailsWithRetry (s : Sys) (ok : Bool) (fd : FormData) (files : List FileRef)
    (cid : String) (pi : Option PaymentInfo) (rc : Nat) (now : Nat) : SendOut :=
  if ok then
    match lookupL s.pendingEmailRetries cid with
    | some rd =>
        { sys := { pendingEmailRetries := eraseL s.pendingEmailRetries cid,
                   timers := s.timers.filter (fun t => t.tid ≠ rd.timeoutId),
                   nextId := s.nextId },
          result := ⟨true, false, none, none, none⟩,
          canceledTimers := [rd.timeoutId],
          scheduledCleanup := if files.isEmpty then [] else files,
          cleanedNow := [] }
    | none =>
        { sys := s,
          result := ⟨true, false, none, none, none⟩,
          canceledTimers := [],
          scheduledCleanup := [],
          cleanedNow := [] }
  else
    match pi with
    | some p =>
        if rc < maxRetries then
          let delay := codeDelay rc
          let rd : RetryData := ⟨fd, files, cid, p, rc + 1, now, s.nextId⟩
          { sys := { pendingEmailRetries := setL s.pendingEmailRetries cid rd,
                     timers := ⟨s.nextId, cid, fd, files, p, rc + 1, now + delay⟩ :: s.timers,
                     nextId := s.nextId + 1 },
            result := ⟨false, true, some (rc + 1), some delay, none⟩,
            canceledTimers := [],
            scheduledCleanup := [],
            cleanedNow := [] }
        else
          { sys := s,
            result := ⟨false, false, none, none, some "email transport failed"⟩,
            canceledTimers := [],
            scheduledCleanup := [],
            cleanedNow := if files.isEmpty then [] else files }
    | none =>
        { sys := s,
          result := ⟨false, false, none, none, some "email transport failed"⟩,
          canceledTimers := [],
          scheduledCleanup := [],
          cleanedNow := [] }

/-- The age test of the sweeper (index.js line 204): `now - createdAt > maxAge`. -/
def expiredB (now : Nat) (p : String × RetryData) : Bool :=
  decide (maxAge < now - p.2.createdAt)

/-- Boolean membership for timer ids. -/
def memNat (x : Nat) : List Nat → Bool
  | [] => false
  | y :: rest => if x = y then true else memNat x rest

/-- One run of the sweeper `cleanupOldRetries` (index.js lines 199-227).
Returns the new state, the timeout handles it passed to `clearTimeout`, and all
files it handed to `cleanupFiles`. -/
def cleanupOldRetries (s : Sys) (now : Nat) : Sys × List Nat × List FileRef :=
  let ex := s.pendingEmailRetries.filter (expiredB now)
  let ids := ex.map (fun p => p.2.timeoutId)
  ( { pendingEmailRetries := s.pendingEmailRetries.filter (fun p => !expiredB now p),
      timers := s.timers.filter (fun t => !memNat t.tid ids),
      nextId := s.nextId },
    ids,
    (ex.map (fun p => p.2.files)).flatten )

/-- First cleanup timer delay (index.js lines 250-252): 5 minutes when
`NODE_ENV === 'production'`, 30 minutes otherwise. -/
def cleanupDelay (prod : Bool) : Nat :=
  if prod then 5 * 60 * 1000 else 30 * 60 * 1000

/-- Deferred cleanup delay (index.js line 261): 2 minutes in production,
10 minutes otherwise. -/
def cleanupRetryDelay (prod : Bool) : Nat :=
  if prod then 2 * 60 * 1000 else 10 * 60 * 1000

/-- The timer chain armed by `scheduleFileCleanup(files, clientId)` (index.js
lines 248-267).  `ledgerAt` gives the contents of `pendingEmailRetries` at each
absolute time.  The first timer fires at `t0 + cleanupDelay`; if the ledger
then holds an entry for `cid` the code arms `setTimeout(() =>
cleanupFiles(files, clientId), retryDelay)` — whose callback runs
`cleanupFiles` unconditionally — else it runs `cleanupFiles` at once.  Returns
the absolute time at which `cleanupFiles` is invoked and the files passed. -/
def scheduleFileCleanupRun (prod : Bool) (ledgerAt : Nat → Ledger) (files : List FileRef)
    (cid : String) (t0 : Nat) : Nat × List FileRef :=
  let t1 := t0 + cleanupDelay prod
  if (lookupL (ledgerAt t1) cid).isSome then (t1 + cleanupRetryDelay prod, files)
  else (t1, files)

/-- Attachment storage as `cleanupFiles` observes it: the paths that exist, and
the paths whose `fs.promises.unlink` raises. -/
structure FsState where
  existing : List String
  failing : List String
deriving DecidableEq, Repr

/-- `cleanupFiles(files, clientId)` (index.js lines 270-298): for each file, if
it exists it is unlinked (an unlink error is caught and counted, never
propagated); a missing file is skipped without error.  Returns the new storage
state, `deletedCount`, and `errorCount`. -/
def cleanupFiles : List FileRef → FsState → FsState × Nat × Nat
  | [], fs => (fs, 0, 0)
  | f :: rest, fs =>
      if f.path ∈ fs.existing then
        if f.path ∈ fs.failing then
          let r := cleanupFiles rest fs
          (r.1, r.2.1, r.2.2 + 1)
        else
          let r := cleanupFiles rest ⟨fs.existing.filter (fun q => q ≠ f.path), fs.failing⟩
          (r.1, r.2.1 + 1, r.2.2)
      else cleanupFiles rest fs

/-- The `/api/submit` handler step after `sendEmailsWithRetry` returns
(index.js lines 806-810): on success with a non-empty file list it calls
`scheduleFileCleanup(allFiles, clientId)`; result is the file list scheduled. -/
def submitHandlerSchedules (out : SendOut) (files : List FileRef) : List FileRef :=
  if out.result.success && !files.isEmpty then files else []


/-! ### Association-list lemmas for the ledger -/

/-- The ledger has no duplicate client-id keys. -/
def keysNodup (l : Ledger) : Prop := (l.map Prod.fst).Nodup

theorem lookupL_mem {l : Ledger} {cid : String} {v : RetryData}
    (h : lookupL l cid = some v) : (cid, v) ∈ l := by
  induction l with
  | nil => simp [lookupL] at h
  | cons p rest ih =>
      by_cases hk : p.1 = cid
      · obtain ⟨k, w⟩ := p
        simp only at hk
        subst hk
        simp [lookupL] at h
        subst h
        exact List.mem_cons_self _ _
      · obtain ⟨k, w⟩ := p
        simp only at hk
        simp [lookupL, hk] at h
        exact List.mem_cons_of_mem _ (ih h)

theorem lookupL_eq_none_iff {l : Ledger} {cid : String} :
    lookupL l cid = none ↔ cid ∉ l.map Prod.fst := by
  induction l with
  | nil => simp [lookupL]
  | cons p rest ih =>
      by_cases hk : p.1 = cid
      · simp [lookupL, hk]
      · simp [lookupL, hk, ih, Ne.symm hk]

theorem eraseL_sublist (l : Ledger) (cid : String) : (eraseL l cid).Sublist l := by
  induction l with
  | nil => simp [eraseL]
  | cons p rest ih =>
      by_cases hk : p.1 = cid
      · simp only [eraseL, if_pos hk]
        exact ih.cons _
      · simp only [eraseL, if_neg hk]
        exact ih.cons₂ _

theorem mem_eraseL {l : Ledger} {cid : String} {q : String × RetryData}
    (h : q ∈ eraseL l cid) : q ∈ l :=
  (eraseL_sublist l cid).mem h

theorem lookupL_eraseL_self (l : Ledger) (cid : String) :
    lookupL (eraseL l cid) cid = none := by
  induction l with
  | nil => rfl
  | cons p rest ih =>
      by_cases hk : p.1 = cid
      · simp only [eraseL, if_pos hk]
        exact ih
      · simp only [eraseL, if_neg hk, lookupL, if_neg hk]
        exact ih

theorem lookupL_eraseL_ne (l : Ledger) {cid cid' : String} (h : cid' ≠ cid) :
    lookupL (eraseL l cid) cid' = lookupL l cid' := by
  induction l with
  | nil => rfl
  | cons p rest ih =>
      by_cases hk : p.1 = cid
      · have : p.1 ≠ cid' := by
          rw [hk]
          exact fun e => h e.symm
        simp only [eraseL, if_pos hk, lookupL, if_neg this]
        exact ih
      · by_cases hk' : p.1 = cid'
        · simp only [eraseL, if_neg hk, lookupL, if_pos hk']
        · simp only [eraseL, if_neg hk, lookupL, if_neg hk']
          exact ih

theorem lookupL_setL_self (l : Ledger) (cid : String) (v : RetryData) :
    lookupL (setL l cid v) cid = some v := by
  simp [setL, lookupL]

theorem lookupL_setL_ne (l : Ledger) {cid cid' : String} (v : RetryData) (h : cid' ≠ cid) :
    lookupL (setL l cid v) cid' = lookupL l cid' := by
  simp only [setL, lookupL, if_neg h.symm]
  exact lookupL_eraseL_ne l h

theorem not_mem_keys_eraseL (l : Ledger) (cid : String) :
    cid ∉ (eraseL l cid).map Prod.fst := by
  rw [← lookupL_eq_none_iff]
  exact lookupL_eraseL_self l cid

theorem keysNodup_eraseL {l : Ledger} (h : keysNodup l) (cid : String) :
    keysNodup (eraseL l cid) :=
  List.Nodup.sublist ((eraseL_sublist l cid).map Prod.fst) h

theorem keysNodup_setL {l : Ledger} (h : keysNodup l) (cid : String) (v : RetryData) :
    keysNodup (setL l cid v) := by
  simp only [keysNodup, setL, List.map_cons]
  exact List.nodup_cons.mpr ⟨not_mem_keys_eraseL l cid, keysNodup_eraseL h cid⟩

theorem lookupL_filter_none {l : Ledger} {cid : String} (q : String × RetryData → Bool)
    (h : lookupL l cid = none) : lookupL (l.filter q) cid = none := by
  rw [lookupL_eq_none_iff] at h ⊢
  intro hmem
  exact h (by
    obtain ⟨p, hp, he⟩ := List.mem_map.mp hmem
    exact List.mem_map.mpr ⟨p, (List.mem_filter.mp hp).1, he⟩)

theorem lookupL_filter_true {l : Ledger} {cid : String} {v : RetryData}
    {q : String × RetryData → Bool} (hn : keysNodup l)
    (h : lookupL l cid = some v) (hq : q (cid, v) = true) :
    lookupL (l.filter q) cid = some v := by
  induction l with
  | nil => simp [lookupL] at h
  | cons p rest ih =>
      obtain ⟨k, w⟩ := p
      have hn' : keysNodup rest := (List.nodup_cons.mp hn).2
      by_cases hk : k = cid
      · subst hk
        simp only [lookupL, if_pos rfl] at h
        obtain rfl : w = v := Option.some.injEq _ _ ▸ h
        have hnone : lookupL rest k = none :=
          lookupL_eq_none_iff.mpr (List.nodup_cons.mp hn).1
        rw [List.filter_cons, if_pos hq]
        simp [lookupL]
      · simp only [lookupL, if_neg hk] at h
        rw [List.filter_cons]
        by_cases hkeep : q (k, w) = true
        · simp only [hkeep, if_pos trivial, lookupL, if_neg hk]
          exact ih hn' h
        · rw [if_neg hkeep]
          exact ih hn' h

theorem lookupL_filter_false {l : Ledger} {cid : String} {v : RetryData}
    {q : String × RetryData → Bool} (hn : keysNodup l)
    (h : lookupL l cid = some v) (hq : q (cid, v) = false) :
    lookupL (l.filter q) cid = none := by
  induction l with
  | nil => simp [lookupL] at h
  | cons p rest ih =>
      obtain ⟨k, w⟩ := p
      have hn' : keysNodup rest := (List.nodup_cons.mp hn).2
      by_cases hk : k = cid
      · subst hk
        simp only [lookupL, if_pos rfl] at h
        obtain rfl : w = v := Option.some.injEq _ _ ▸ h
        have hnone : lookupL rest k = none :=
          lookupL_eq_none_iff.mpr (List.nodup_cons.mp hn).1
        rw [List.filter_cons, if_neg (by simp [hq])]
        exact lookupL_filter_none q hnone
      · simp only [lookupL, if_neg hk] at h
        rw [List.filter_cons]
        by_cases hkeep : q (k, w) = true
        · simp only [hkeep, if_pos trivial, lookupL, if_neg hk]
          exact ih hn' h
        · rw [if_neg hkeep]
          exact ih hn' h

theorem memNat_iff {x : Nat} {l : List Nat} : memNat x l = true ↔ x ∈ l := by
  induction l with
  | nil => simp [memNat]
  | cons y rest ih =>
      by_cases hx : x = y
      · subst hx
        simp [memNat]
      · simp [memNat, hx, ih]

/-! ### Reachable coordinator states and their invariant -/

/-- State invariant maintained by the coordinator: unique ledger keys, unique
timer handles, every armed timer is the one recorded by a live ledger entry
(`rd.timeoutId`), stored keys agree with the stored `clientId`, and every
stored `retryCount` lies in `1..maxRetries`. -/
structure SysInv (s : Sys) : Prop where
  ledgerNodup : keysNodup s.pendingEmailRetries
  tidsNodup : (s.timers.map RetryTimer.tid).Nodup
  tidsLt : ∀ t ∈ s.timers, t.tid < s.nextId
  entryIdsLt : ∀ p ∈ s.pendingEmailRetries, p.2.timeoutId < s.nextId
  link : ∀ t ∈ s.timers, ∃ rd, lookupL s.pendingEmailRetries t.cid = some rd ∧
      rd.timeoutId = t.tid ∧ rd.retryCount = t.rc
  keyIsClientId : ∀ p ∈ s.pendingEmailRetries, p.2.clientId = p.1
  rcBounds : ∀ p ∈ s.pendingEmailRetries, 1 ≤ p.2.retryCount ∧ p.2.retryCount ≤ maxRetries

theorem SysInv.timer_unique {s : Sys} (hI : SysInv s) :
    ∀ t₁ ∈ s.timers, ∀ t₂ ∈ s.timers, t₁.cid = t₂.cid → t₁ = t₂ := by
  intro t1 h1 t2 h2 hcid
  obtain ⟨r1, hl1, hid1, _⟩ := hI.link t1 h1
  obtain ⟨r2, hl2, hid2, _⟩ := hI.link t2 h2
  rw [hcid] at hl1
  obtain rfl : r1 = r2 := Option.some.inj (hl1.symm.trans hl2)
  exact List.inj_on_of_nodup_map hI.tidsNodup h1 h2 (hid1 ▸ hid2 ▸ rfl)

theorem keysNodup_filter {l : Ledger} (h : keysNodup l) (q : String × RetryData → Bool) :
    keysNodup (l.filter q) :=
  List.Nodup.sublist ((List.filter_sublist l).map Prod.fst) h

/-- Filtering the armed timers preserves the invariant. -/
theorem inv_filter_timers {s : Sys} (hI : SysInv s) (q : RetryTimer → Bool) :
    SysInv { s with timers := s.timers.filter q } := by
  refine ⟨hI.ledgerNodup,
    List.Nodup.sublist ((List.filter_sublist _).map _) hI.tidsNodup, ?_,
    hI.entryIdsLt, ?_, hI.keyIsClientId, hI.rcBounds⟩
  · intro t ht
    exact hI.tidsLt t (List.mem_filter.mp ht).1
  · intro t ht
    exact hI.link t (List.mem_filter.mp ht).1

/-- One invocation of `sendEmailsWithRetry` preserves the invariant, provided
no timer for `cid` is armed at the moment of the call (true for every caller:
the submit handler uses a freshly minted client id, a firing timer has just
been consumed, and the manual-retry endpoint has just canceled the entry's
timer). -/
theorem inv_send {s : Sys} (ok : Bool) (fd : FormData) (files : List FileRef) (cid : String)
    (pi : Option PaymentInfo) (rc now : Nat) (hI : SysInv s)
    (hnt : ∀ t ∈ s.timers, t.cid ≠ cid) :
    SysInv (sendEmailsWithRetry s ok fd files cid pi rc now).sys := by
  cases ok with
  | true =>
      cases hlk : lookupL s.pendingEmailRetries cid with
      | some rd =>
          have hs : (sendEmailsWithRetry s true fd files cid pi rc now).sys =
              { pendingEmailRetries := eraseL s.pendingEmailRetries cid,
                timers := s.timers.filter (fun t => t.tid ≠ rd.timeoutId),
                nextId := s.nextId } := by
            simp [sendEmailsWithRetry, hlk]
          rw [hs]
          refine ⟨keysNodup_eraseL hI.ledgerNodup cid,
            List.Nodup.sublist ((List.filter_sublist _).map _) hI.tidsNodup,
            ?_, ?_, ?_, ?_, ?_⟩
          · intro t ht
            exact hI.tidsLt t (List.mem_filter.mp ht).1
          · intro p hp
            exact hI.entryIdsLt p (mem_eraseL hp)
          · intro t ht
            have htm := (List.mem_filter.mp ht).1
            obtain ⟨r, hr, hid, hrc⟩ := hI.link t htm
            refine ⟨r, ?_, hid, hrc⟩
            rw [lookupL_eraseL_ne _ (hnt t htm)]
            exact hr
          · intro p hp
            exact hI.keyIsClientId p (mem_eraseL hp)
          · intro p hp
            exact hI.rcBounds p (mem_eraseL hp)
      | none =>
          have hs : (sendEmailsWithRetry s true fd files cid pi rc now).sys = s := by
            simp [sendEmailsWithRetry, hlk]
          rw [hs]
          exact hI
  | false =>
      cases pi with
      | none =>
          have hs : (sendEmailsWithRetry s false fd files cid none rc now).sys = s := rfl
          rw [hs]
          exact hI
      | some p =>
          by_cases hrc : rc < maxRetries
          · have hs : (sendEmailsWithRetry s false fd files cid (some p) rc now).sys =
                { pendingEmailRetries :=
                    setL s.pendingEmailRetries cid ⟨fd, files, cid, p, rc + 1, now, s.nextId⟩,
                  timers := ⟨s.nextId, cid, fd, files, p, rc + 1, now + codeDelay rc⟩ :: s.timers,
                  nextId := s.nextId + 1 } := by
              simp [sendEmailsWithRetry, hrc]
            rw [hs]
            refine ⟨keysNodup_setL hI.ledgerNodup cid _, ?_, ?_, ?_, ?_, ?_, ?_⟩
            · refine List.nodup_cons.mpr ⟨?_, hI.tidsNodup⟩
              intro hmem
              obtain ⟨t, ht, htid⟩ := List.mem_map.mp hmem
              have h1 := hI.tidsLt t ht
              have h2 : t.tid = s.nextId := htid
              omega
            · intro t ht
              rcases List.mem_cons.mp ht with h | h
              · rw [h]
                exact Nat.lt_succ_self _
              · exact Nat.lt_succ_of_lt (hI.tidsLt t h)
            · intro q hq
              rcases List.mem_cons.mp hq with h | h
              · rw [h]
                exact Nat.lt_succ_self _
              · exact Nat.lt_succ_of_lt (hI.entryIdsLt q (mem_eraseL h))
            · intro t ht
              rcases List.mem_cons.mp ht with h | h
              · subst h
                exact ⟨_, lookupL_setL_self _ _ _, rfl, rfl⟩
              · obtain ⟨r, hr, hid, hrcnt⟩ := hI.link t h
                refine ⟨r, ?_, hid, hrcnt⟩
                rw [lookupL_setL_ne _ _ (hnt t h)]
                exact hr
            · intro q hq
              rcases List.mem_cons.mp hq with h | h
              · rw [h]
              · exact hI.keyIsClientId q (mem_eraseL h)
            · intro q hq
              rcases List.mem_cons.mp hq with h | h
              · rw [h]
                exact ⟨Nat.succ_le_succ (Nat.zero_le rc), hrc⟩
              · exact hI.rcBounds q (mem_eraseL h)
          · have hs : (sendEmailsWithRetry s false fd files cid (some p) rc now).sys = s := by
              simp [sendEmailsWithRetry, hrc]
            rw [hs]
            exact hI

/-- Reachable coordinator states.  Events are the atomic callback turns of the
single-threaded process:
* `submit`: the `/api/submit` handler calls `sendEmailsWithRetry(formData,
  allFiles, clientId, paymentInfo)` with `retryCount = 0` (line 804); the
  client id was freshly minted by `generateClientId`, so no ledger entry for it
  exists.
* `timerFire`: an armed retry timer fires; the handle is spent, and its
  callback (lines 170-173) re-invokes `sendEmailsWithRetry` with the captured
  data and `nextRetryCount`.
* `manualRetry`: the `/api/retry-email` handler (lines 1022-1044) finds the
  entry, calls `clearTimeout(retryData.timeoutId)` and re-invokes
  `sendEmailsWithRetry` at the entry's current retry count (the stored
  `retryData.clientId` equals the map key).
* `sweep`: the `setInterval` sweeper runs `cleanupOldRetries`. -/
inductive Reach : Sys → Prop
  | init : Reach sys0
  | submit {s : Sys} (fd : FormData) (files : List FileRef) (cid : String)
      (pi : Option PaymentInfo) (ok : Bool) (now : Nat) :
      Reach s → lookupL s.pendingEmailRetries cid = none →
      Reach (sendEmailsWithRetry s ok fd files cid pi 0 now).sys
  | timerFire {s : Sys} (t : RetryTimer) (ok : Bool) (now : Nat) :
      Reach s → t ∈ s.timers →
      Reach (sendEmailsWithRetry { s with timers := s.timers.filter (fun u => u.tid ≠ t.tid) }
        ok t.formData t.files t.cid (some t.paymentInfo) t.rc now).sys
  | manualRetry {s : Sys} (cid : String) (rd : RetryData) (ok : Bool) (now : Nat) :
      Reach s → lookupL s.pendingEmailRetries cid = some rd →
      Reach (sendEmailsWithRetry
        { s with timers := s.timers.filter (fun u => u.tid ≠ rd.timeoutId) }
        ok rd.formData rd.files cid (some rd.paymentInfo) rd.retryCount now).sys
  | sweep {s : Sys} (now : Nat) :
      Reach s → Reach (cleanupOldRetries s now).1

/-- Every reachable state satisfies the invariant. -/
theorem reach_inv {s : Sys} (h : Reach s) : SysInv s := by
  induction h with
  | init =>
      refine ⟨?_, ?_, ?_, ?_, ?_, ?_, ?_⟩ <;> simp [sys0, keysNodup]
  | submit fd files cid pi ok now _ hnone ih =>
      refine inv_send ok fd files cid pi 0 now ih ?_
      intro t ht heq
      obtain ⟨rd, hrd, _⟩ := ih.link t ht
      rw [heq, hnone] at hrd
      cases hrd
  | timerFire t ok now _ htm ih =>
      have ih' := inv_filter_timers ih (fun u => u.tid ≠ t.tid)
      refine inv_send ok t.formData t.files t.cid (some t.paymentInfo) t.rc now ih' ?_
      intro u hu heq
      have hu' := List.mem_filter.mp hu
      have hne : u.tid ≠ t.tid := by simpa using hu'.2
      exact hne (congrArg RetryTimer.tid (ih.timer_unique u hu'.1 t htm heq))
  | manualRetry cid rd ok now _ hlk ih =>
      have ih' := inv_filter_timers ih (fun u => u.tid ≠ rd.timeoutId)
      refine inv_send ok rd.formData rd.files cid (some rd.paymentInfo) rd.retryCount now ih' ?_
      intro u hu heq
      have hu' := List.mem_filter.mp hu
      have hne : u.tid ≠ rd.timeoutId := by simpa using hu'.2
      obtain ⟨r, hr, hid, _⟩ := ih.link u hu'.1
      rw [heq, hlk] at hr
      obtain rfl : rd = r := Option.some.inj hr
      exact hne hid.symm
  | sweep now _ ih =>
      rename_i s hR
      have hs : (cleanupOldRetries s now).1 =
          { pendingEmailRetries := s.pendingEmailRetries.filter (fun p => !expiredB now p),
            timers := s.timers.filter (fun t => !memNat t.tid
              ((s.pendingEmailRetries.filter (expiredB now)).map (fun p => p.2.timeoutId))),
            nextId := s.nextId } := rfl
      rw [hs]
      refine ⟨keysNodup_filter ih.ledgerNodup _,
        List.Nodup.sublist ((List.filter_sublist _).map _) ih.tidsNodup, ?_, ?_, ?_, ?_, ?_⟩
      · intro t ht
        exact ih.tidsLt t (List.mem_filter.mp ht).1
      · intro p hp
        exact ih.entryIdsLt p (List.mem_filter.mp hp).1
      · intro t ht
        have htm := (List.mem_filter.mp ht).1
        have hkeep : (!memNat t.tid
            ((s.pendingEmailRetries.filter (expiredB now)).map (fun p => p.2.timeoutId))) = true :=
          (List.mem_filter.mp ht).2
        obtain ⟨r, hr, hid, hrc⟩ := ih.link t htm
        have hexp : expiredB now (t.cid, r) = false := by
          cases hbe : expiredB now (t.cid, r) with
          | false => rfl
          | true =>
              exfalso
              have hmem : (t.cid, r) ∈ s.pendingEmailRetries.filter (expiredB now) :=
                List.mem_filter.mpr ⟨lookupL_mem hr, hbe⟩
              have hin : t.tid ∈ (s.pendingEmailRetries.filter (expiredB now)).map
                  (fun p => p.2.timeoutId) :=
                List.mem_map.mpr ⟨(t.cid, r), hmem, hid⟩
              rw [memNat_iff.mpr hin] at hkeep
              simp at hkeep
        refine ⟨r, ?_, hid, hrc⟩
        exact lookupL_filter_true ih.ledgerNodup hr (by simp [hexp])
      · intro p hp
        exact ih.keyIsClientId p (List.mem_filter.mp hp).1
      · intro p hp
        exact ih.rcBounds p (List.mem_filter.mp hp).1

/-! ### Concrete fixtures for witnesses and counterexamples -/

def fdX : FormData := ⟨"Asha Rao", "asha@example.com"⟩

def piX : PaymentInfo := ⟨"pay_101", "ORDER_TT25_1", "999", "txn_101", "PAID"⟩

def fX : FileRef := ⟨"/tmp/uploads/aadharCard-17-1.pdf", "aadhar.pdf"⟩

def fY : FileRef := ⟨"/tmp/uploads/panCard-17-2.pdf", "pan.pdf"⟩

/-- State after a paid submission whose first delivery attempt failed at
t = 1000: one ledger entry for TT25A (retryCount 1) and one armed timer. -/
def sysA : Sys := (sendEmailsWithRetry sys0 false fdX [fX] "TT25A" (some piX) 0 1000).sys

theorem sysA_reach : Reach sysA :=
  Reach.submit fdX [fX] "TT25A" (some piX) false 1000 Reach.init rfl

/-! ### C7: at most one ledger entry and one armed timer per identity -/

/-- **C7**: in every reachable coordinator state the Ledger holds at most one
entry per submission identity (no duplicate keys), and at most one armed timer
exists per identity: any two armed timers for the same identity are the same
timer.  The proof maintains that every replacement or removal of an entry
happens when the entry's previously armed timer is already canceled or spent,
so no operation ever leaves a second armed timer behind. -/
theorem at_most_one_timer_per_identity {s : Sys} (h : Reach s) :
    keysNodup s.pendingEmailRetries ∧
    ∀ t₁ ∈ s.timers, ∀ t₂ ∈ s.timers, t₁.cid = t₂.cid → t₁ = t₂ :=
  ⟨(reach_inv h).ledgerNodup, (reach_inv h).timer_unique⟩

/-- Witness for C7 at the reachable state `sysA` (one entry, one armed timer). -/
theorem at_most_one_timer_per_identity_witness :
    keysNodup sysA.pendingEmailRetries ∧
    ∀ t₁ ∈ sysA.timers, ∀ t₂ ∈ sysA.timers, t₁.cid = t₂.cid → t₁ = t₂ :=
  at_most_one_timer_per_identity sysA_reach

/-! ### C10: stored retry counts lie in 1..5; the delay-table fallback is dead -/

/-- **C10**: every entry ever stored in the Ledger carries a `retryCount` in
`1..maxRetries` (in particular never 0 — entries are only written with
`retryCount + 1` under the guard `retryCount < maxRetries`); each armed timer
re-attempts at exactly the stored count (the stored count names the next
scheduled attempt index); and every index at which the code reads the delay
table satisfies the guard `rc < maxRetries`, at which the table lookup always
hits, so the `||` clamping fallback in `codeDelay` is never exercised. -/
theorem retryCount_bounds_and_dead_fallback {s : Sys} (h : Reach s) :
    (∀ p ∈ s.pendingEmailRetries, 1 ≤ p.2.retryCount ∧ p.2.retryCount ≤ maxRetries) ∧
    (∀ t ∈ s.timers, ∃ rd, lookupL s.pendingEmailRetries t.cid = some rd ∧
        rd.retryCount = t.rc) ∧
    (∀ rc, rc < maxRetries → (retryDelays.get? rc).isSome = true) := by
  refine ⟨(reach_inv h).rcBounds, ?_, ?_⟩
  · intro t ht
    obtain ⟨rd, hr, _, hrc⟩ := (reach_inv h).link t ht
    exact ⟨rd, hr, hrc⟩
  · intro rc hrc
    rw [List.get?_eq_get (show rc < retryDelays.length from hrc)]
    rfl

/-- Witness for C10 at the reachable state `sysA`. -/
theorem retryCount_bounds_and_dead_fallback_witness :
    (∀ p ∈ sysA.pendingEmailRetries, 1 ≤ p.2.retryCount ∧ p.2.retryCount ≤ maxRetries) ∧
    (∀ t ∈ sysA.timers, ∃ rd, lookupL sysA.pendingEmailRetries t.cid = some rd ∧
        rd.retryCount = t.rc) ∧
    (∀ rc, rc < maxRetries → (retryDelays.get? rc).isSome = true) :=
  retryCount_bounds_and_dead_fallback sysA_reach

/-! ### C3: exactly maxRetries + 1 = 6 attempts, delays from the table -/

/-- The attempt sequence of a paid submission whose transport fails on every
attempt: the submit handler's call at `retryCount = 0`, then each armed timer's
callback at the stored count.  Per attempt it records the `retryCount` passed
and the `nextRetryIn` of the result (the delay of the armed retry, `none` when
no further retry is armed).  `fuel` only caps the recursion depth. -/
def alwaysFailRun (fuel : Nat) (s : Sys) (fd : FormData) (files : List FileRef)
    (cid : String) (p : PaymentInfo) (rc now : Nat) : List (Nat × Option Nat) :=
  match fuel with
  | 0 => []
  | fuel + 1 =>
      let out := sendEmailsWithRetry s false fd files cid (some p) rc now
      (rc, out.result.nextRetryIn) ::
        (if out.result.willRetry then
          alwaysFailRun fuel out.sys fd files cid p (rc + 1)
            (now + (out.result.nextRetryIn.getD 0))
        else [])

/-- **C3**: for every paid submission whose transport fails on every attempt,
the automatic loop makes exactly `maxRetries + 1 = 6` delivery attempts (indices
0..5), and the delay armed before retry n (1-indexed) is the n-th entry of
[30s, 60s, 120s, 300s, 600s]; after the sixth failure no retry is armed,
whatever fuel remains. -/
theorem attempts_budget_and_delays (k : Nat) (s : Sys) (fd : FormData) (files : List FileRef)
    (cid : String) (p : PaymentInfo) (now : Nat) :
    (alwaysFailRun (k + 6) s fd files cid p 0 now).length = maxRetries + 1 ∧
    (alwaysFailRun (k + 6) s fd files cid p 0 now).map Prod.snd =
      [some 30000, some 60000, some 120000, some 300000, some 600000, none] ∧
    (alwaysFailRun (k + 6) s fd files cid p 0 now).map Prod.fst = [0, 1, 2, 3, 4, 5] :=
  ⟨rfl, rfl, rfl⟩

/-! ### C8: unpaid failure has no side effects -/

/-- **C8**: when the transport fails for a submission without payment info,
`sendEmailsWithRetry` returns success:false / willRetry:false with an error,
leaves the state untouched (no ledger entry created, no timer armed), cancels
no timer, schedules no cleanup and invokes the attachment cleaner on nothing. -/
theorem unpaid_failure_no_side_effects (s : Sys) (fd : FormData) (files : List FileRef)
    (cid : String) (rc now : Nat) :
    (sendEmailsWithRetry s false fd files cid none rc now).sys = s ∧
    (sendEmailsWithRetry s false fd files cid none rc now).result.success = false ∧
    (sendEmailsWithRetry s false fd files cid none rc now).result.willRetry = false ∧
    (sendEmailsWithRetry s false fd files cid none rc now).result.error.isSome = true ∧
    (sendEmailsWithRetry s false fd files cid none rc now).canceledTimers = [] ∧
    (sendEmailsWithRetry s false fd files cid none rc now).scheduledCleanup = [] ∧
    (sendEmailsWithRetry s false fd files cid none rc now).cleanedNow = [] :=
  ⟨rfl, rfl, rfl, rfl, rfl, rfl, rfl⟩

/-! ### C5: success removes the entry, cancels its timer, schedules cleanup -/

/-- **C5**: whenever `sendEmailsWithRetry` succeeds — for any attempt index and
any identity — it returns `{success: true}`, afterwards no ledger entry for the
identity exists, and if an entry existed it was removed after `clearTimeout` on
its stored handle (no armed timer with that handle survives) with the cleanup
scheduler triggered on the attachments when there are any; when no entry
existed (the first-attempt success inside `/api/submit`), the handler itself
schedules the cleanup (lines 806-810). -/
theorem success_removes_entry_and_schedules_cleanup (s : Sys) (fd : FormData)
    (files : List FileRef) (cid : String) (pi : Option PaymentInfo) (rc now : Nat) :
    (sendEmailsWithRetry s true fd files cid pi rc now).result = ⟨true, false, none, none, none⟩ ∧
    lookupL (sendEmailsWithRetry s true fd files cid pi rc now).sys.pendingEmailRetries cid
      = none ∧
    (∀ rd, lookupL s.pendingEmailRetries cid = some rd →
      (sendEmailsWithRetry s true fd files cid pi rc now).canceledTimers = [rd.timeoutId] ∧
      (∀ t ∈ (sendEmailsWithRetry s true fd files cid pi rc now).sys.timers,
          t.tid ≠ rd.timeoutId) ∧
      (files ≠ [] →
        (sendEmailsWithRetry s true fd files cid pi rc now).scheduledCleanup = files)) ∧
    (lookupL s.pendingEmailRetries cid = none → files ≠ [] →
      submitHandlerSchedules (sendEmailsWithRetry s true fd files cid pi rc now) files
        = files) := by
  cases hlk : lookupL s.pendingEmailRetries cid with
  | some rd =>
      have hshape : sendEmailsWithRetry s true fd files cid pi rc now =
          { sys := { pendingEmailRetries := eraseL s.pendingEmailRetries cid,
                     timers := s.timers.filter (fun t => t.tid ≠ rd.timeoutId),
                     nextId := s.nextId },
            result := ⟨true, false, none, none, none⟩,
            canceledTimers := [rd.timeoutId],
            scheduledCleanup := if files.isEmpty then [] else files,
            cleanedNow := [] } := by
        simp [sendEmailsWithRetry, hlk]
      rw [hshape]
      refine ⟨rfl, lookupL_eraseL_self _ _, ?_, ?_⟩
      · intro rd' hrd'
        obtain rfl : rd = rd' := Option.some.inj hrd'
        refine ⟨rfl, ?_, ?_⟩
        · intro t ht
          simpa using (List.mem_filter.mp ht).2
        · intro hf
          cases files with
          | nil => exact absurd rfl hf
          | cons a l => rfl
      · intro hnone
        exact Option.noConfusion hnone
  | none =>
      have hshape : sendEmailsWithRetry s true fd files cid pi rc now =
          { sys := s,
            result := ⟨true, false, none, none, none⟩,
            canceledTimers := [],
            scheduledCleanup := [],
            cleanedNow := [] } := by
        simp [sendEmailsWithRetry, hlk]
      rw [hshape]
      refine ⟨rfl, hlk, ?_, ?_⟩
      · intro rd' hrd'
        exact Option.noConfusion hrd'
      · intro _ hf
        cases files with
        | nil => exact absurd rfl hf
        | cons a l => rfl

/-- The successful second attempt on `sysA` (timer handle 0 armed). -/
def c5out : SendOut := sendEmailsWithRetry sysA true fdX [fX] "TT25A" (some piX) 1 40000

/-- Witness for C5: success at retryCount 1 on `sysA` (entry present, timer
handle 0 armed): the entry is removed, handle 0 canceled, cleanup scheduled. -/
theorem success_removes_entry_and_schedules_cleanup_witness :
    c5out.result = ⟨true, false, none, none, none⟩ ∧
    lookupL c5out.sys.pendingEmailRetries "TT25A" = none ∧
    c5out.canceledTimers = [0] ∧
    c5out.scheduledCleanup = [fX] := by
  have h := success_removes_entry_and_schedules_cleanup sysA fdX [fX] "TT25A" (some piX) 1 40000
  have hlk : lookupL sysA.pendingEmailRetries "TT25A"
      = some ⟨fdX, [fX], "TT25A", piX, 1, 1000, 0⟩ := by decide
  have h3 := h.2.2.1 _ hlk
  exact ⟨h.1, h.2.1, h3.1, h3.2.2 (by decide)⟩

/-! ### C6: the replaced entry does NOT keep the original creation time -/

/-- First failure of a paid submission TT25B at t = 1000. -/
def c6out1 : SendOut := sendEmailsWithRetry sys0 false fdX [fX] "TT25B" (some piX) 0 1000

/-- The retry timer (handle 0) fires at t = 31000 and the attempt fails again:
exactly the `timerFire` event shape. -/
def c6out2 : SendOut :=
  sendEmailsWithRetry
    { c6out1.sys with timers := c6out1.sys.timers.filter (fun u => u.tid ≠ 0) }
    false fdX [fX] "TT25B" (some piX) 1 31000

/-- **C6 counterexample**: after the first failure at t = 1000 the entry's
`createdAt` is 1000; after the second failure at t = 31000 the replaced entry's
`createdAt` is 31000, not the preserved original 1000 — line 165 stores
`createdAt: Date.now()` unconditionally. -/
theorem createdAt_not_preserved :
    (lookupL c6out1.sys.pendingEmailRetries "TT25B").map RetryData.createdAt = some 1000 ∧
    (lookupL c6out2.sys.pendingEmailRetries "TT25B").map RetryData.createdAt = some 31000 ∧
    (lookupL c6out2.sys.pendingEmailRetries "TT25B").map RetryData.createdAt ≠ some 1000 := by
  refine ⟨by decide, by decide, by decide⟩

/-- **C6 amended**: when an attempt fails for a paid submission with retries
remaining, the ledger entry is created or replaced with the submission data,
attachments and payment info copied and the retry count incremented, but its
creation timestamp is set to the time of the current (latest) failure; the
original first-failure timestamp is not preserved on re-entry. -/
theorem reentry_takes_latest_failure_time (s : Sys) (fd : FormData) (files : List FileRef)
    (cid : String) (p : PaymentInfo) (rc now : Nat) (h : rc < maxRetries) :
    lookupL (sendEmailsWithRetry s false fd files cid (some p) rc now).sys.pendingEmailRetries
      cid = some ⟨fd, files, cid, p, rc + 1, now, s.nextId⟩ := by
  have hshape : (sendEmailsWithRetry s false fd files cid (some p) rc now).sys =
      { pendingEmailRetries :=
          setL s.pendingEmailRetries cid ⟨fd, files, cid, p, rc + 1, now, s.nextId⟩,
        timers := ⟨s.nextId, cid, fd, files, p, rc + 1, now + codeDelay rc⟩ :: s.timers,
        nextId := s.nextId + 1 } := by
    simp [sendEmailsWithRetry, h]
  rw [hshape]
  exact lookupL_setL_self _ _ _

/-- Witness for the amended C6: the re-entry at t = 31000 stores createdAt 31000. -/
theorem reentry_takes_latest_failure_time_witness :
    lookupL c6out2.sys.pendingEmailRetries "TT25B"
      = some ⟨fdX, [fX], "TT25B", piX, 2, 31000, 1⟩ :=
  reentry_takes_latest_failure_time _ fdX [fX] "TT25B" piX 1 31000 (by decide)

/-! ### C9: the attachment cleaner tolerates missing files and is idempotent -/

theorem cleanupFiles_existing_subset (files : List FileRef) (fs : FsState) :
    ∀ q ∈ (cleanupFiles files fs).1.existing, q ∈ fs.existing := by
  induction files generalizing fs with
  | nil => intro q hq; exact hq
  | cons f rest ih =>
      intro q hq
      by_cases h1 : f.path ∈ fs.existing
      · by_cases h2 : f.path ∈ fs.failing
        · rw [show cleanupFiles (f :: rest) fs =
              ((cleanupFiles rest fs).1, (cleanupFiles rest fs).2.1,
                (cleanupFiles rest fs).2.2 + 1) from by
            simp [cleanupFiles, h1, h2]] at hq
          exact ih fs q hq
        · rw [show cleanupFiles (f :: rest) fs =
              ((cleanupFiles rest ⟨fs.existing.filter (fun r => r ≠ f.path), fs.failing⟩).1,
                (cleanupFiles rest ⟨fs.existing.filter (fun r => r ≠ f.path), fs.failing⟩).2.1 + 1,
                (cleanupFiles rest ⟨fs.existing.filter (fun r => r ≠ f.path), fs.failing⟩).2.2)
              from by simp [cleanupFiles, h1, h2]] at hq
          have := ih ⟨fs.existing.filter (fun r => r ≠ f.path), fs.failing⟩ q hq
          exact (List.mem_filter.mp this).1
      · rw [show cleanupFiles (f :: rest) fs = cleanupFiles rest fs from by
            simp [cleanupFiles, h1]] at hq
        exact ih fs q hq

theorem cleanupFiles_errors_zero (files : List FileRef) (fs : FsState)
    (h : ∀ f ∈ files, f.path ∉ fs.failing) : (cleanupFiles files fs).2.2 = 0 := by
  induction files generalizing fs with
  | nil => rfl
  | cons f rest ih =>
      have hf : f.path ∉ fs.failing := h f (List.mem_cons_self _ _)
      have hrest : ∀ g ∈ rest, g.path ∉ fs.failing :=
        fun g hg => h g (List.mem_cons_of_mem _ hg)
      by_cases h1 : f.path ∈ fs.existing
      · rw [show cleanupFiles (f :: rest) fs =
            ((cleanupFiles rest ⟨fs.existing.filter (fun r => r ≠ f.path), fs.failing⟩).1,
              (cleanupFiles rest ⟨fs.existing.filter (fun r => r ≠ f.path), fs.failing⟩).2.1 + 1,
              (cleanupFiles rest ⟨fs.existing.filter (fun r => r ≠ f.path), fs.failing⟩).2.2)
            from by simp [cleanupFiles, h1, hf]]
        exact ih ⟨fs.existing.filter (fun r => r ≠ f.path), fs.failing⟩ hrest
      · rw [show cleanupFiles (f :: rest) fs = cleanupFiles rest fs from by
            simp [cleanupFiles, h1]]
        exact ih fs hrest

theorem cleanupFiles_removes (files : List FileRef) (fs : FsState)
    (h : ∀ f ∈ files, f.path ∉ fs.failing) :
    ∀ f ∈ files, f.path ∉ (cleanupFiles files fs).1.existing := by
  induction files generalizing fs with
  | nil => intro f hf; cases hf
  | cons f rest ih =>
      have hf : f.path ∉ fs.failing := h f (List.mem_cons_self _ _)
      have hrest : ∀ g ∈ rest, g.path ∉ fs.failing :=
        fun g hg => h g (List.mem_cons_of_mem _ hg)
      intro g hg
      by_cases h1 : f.path ∈ fs.existing
      · rw [show cleanupFiles (f :: rest) fs =
            ((cleanupFiles rest ⟨fs.existing.filter (fun r => r ≠ f.path), fs.failing⟩).1,
              (cleanupFiles rest ⟨fs.existing.filter (fun r => r ≠ f.path), fs.failing⟩).2.1 + 1,
              (cleanupFiles rest ⟨fs.existing.filter (fun r => r ≠ f.path), fs.failing⟩).2.2)
            from by simp [cleanupFiles, h1, hf]]
        rcases List.mem_cons.mp hg with hq | hq
        · subst hq
          intro hmem
          have hsub := cleanupFiles_existing_subset rest
            ⟨fs.existing.filter (fun r => r ≠ g.path), fs.failing⟩ g.path hmem
          have hne := (List.mem_filter.mp hsub).2
          simp at hne
        · exact ih ⟨fs.existing.filter (fun r => r ≠ f.path), fs.failing⟩ hrest g hq
      · rw [show cleanupFiles (f :: rest) fs = cleanupFiles rest fs from by
            simp [cleanupFiles, h1]]
        rcases List.mem_cons.mp hg with hq | hq
        · subst hq
          intro hmem
          exact h1 (cleanupFiles_existing_subset rest fs g.path hmem)
        · exact ih fs hrest g hq

theorem cleanupFiles_all_missing (files : List FileRef) (fs : FsState)
    (h : ∀ f ∈ files, f.path ∉ fs.existing) : cleanupFiles files fs = (fs, 0, 0) := by
  induction files with
  | nil => rfl
  | cons f rest ih =>
      have h1 : f.path ∉ fs.existing := h f (List.mem_cons_self _ _)
      rw [show cleanupFiles (f :: rest) fs = cleanupFiles rest fs from by
          simp [cleanupFiles, h1]]
      exact ih (fun g hg => h g (List.mem_cons_of_mem _ hg))

/-- **C9**: `cleanupFiles` never raises (in the model it is a total function
whose unlink errors only increment `errorCount`); a missing file is treated as
already clean, not an error; and — provided no file of the list has a failing
unlink, which is what "deletes the file if it exists" presumes — the first
call reports zero errors and removes every listed path, so a second call on
the same list finds nothing to delete and reports zero errors and zero
deletions, leaving the storage unchanged. -/
theorem cleanup_missing_ok_and_idempotent (files : List FileRef) (fs : FsState)
    (h : ∀ f ∈ files, f.path ∉ fs.failing) :
    (cleanupFiles files fs).2.2 = 0 ∧
    (∀ f ∈ files, f.path ∉ (cleanupFiles files fs).1.existing) ∧
    cleanupFiles files (cleanupFiles files fs).1 = ((cleanupFiles files fs).1, 0, 0) :=
  ⟨cleanupFiles_errors_zero files fs h,
   cleanupFiles_removes files fs h,
   cleanupFiles_all_missing files _ (cleanupFiles_removes files fs h)⟩

/-- Witness for C9: two files on storage plus an unrelated one; the second
call produces zero errors and zero deletions. -/
theorem cleanup_missing_ok_and_idempotent_witness :
    (cleanupFiles [fX, fY] ⟨[fX.path, fY.path, "/tmp/uploads/other.bin"], []⟩).2.2 = 0 ∧
    (∀ f ∈ [fX, fY], f.path ∉
      (cleanupFiles [fX, fY] ⟨[fX.path, fY.path, "/tmp/uploads/other.bin"], []⟩).1.existing) ∧
    cleanupFiles [fX, fY]
        (cleanupFiles [fX, fY] ⟨[fX.path, fY.path, "/tmp/uploads/other.bin"], []⟩).1
      = ((cleanupFiles [fX, fY] ⟨[fX.path, fY.path, "/tmp/uploads/other.bin"], []⟩).1, 0, 0) :=
  cleanup_missing_ok_and_idempotent [fX, fY] ⟨[fX.path, fY.path, "/tmp/uploads/other.bin"], []⟩
    (by decide)

/-! ### C2: the cleanup scheduler defers once, then cleans without recheck -/

/-- The property C2 asserts of the cleanup timer chain: `cleanupFiles` ends up
invoked only at a moment when no ledger entry for the identity exists. -/
def cleanerInvokedWhenAbsent (prod : Bool) (ledgerAt : Nat → Ledger) (files : List FileRef)
    (cid : String) (t0 : Nat) : Prop :=
  lookupL (ledgerAt (scheduleFileCleanupRun prod ledgerAt files cid t0).1) cid = none

def rdD : RetryData := ⟨fdX, [fX], "TT25D", piX, 1, 0, 0⟩

/-- **C2 counterexample**: with an entry for TT25D present the whole time
(`ledgerAt` constant), the production-profile chain fires at t = 300000, defers
once, and at t = 420000 invokes `cleanupFiles` although the entry still exists:
the deferred callback (line 262) calls `cleanupFiles` directly without
rechecking, so no defer-and-recheck loop until absence exists. -/
theorem cleanup_deferred_fires_while_entry_exists :
    ¬ cleanerInvokedWhenAbsent true (fun _ => [("TT25D", rdD)]) [fX] "TT25D" 0 := by
  unfold cleanerInvokedWhenAbsent
  decide

/-- **C2 amended**: when the first cleanup timer fires and a ledger entry for
the identity exists, cleanup is deferred exactly once — by 2 minutes in the
production profile, 10 minutes otherwise — and on that later firing
`cleanupFiles` is invoked unconditionally, without rechecking the ledger. -/
theorem cleanup_defers_once_then_cleans (prod : Bool) (ledgerAt : Nat → Ledger)
    (files : List FileRef) (cid : String) (t0 : Nat)
    (h : (lookupL (ledgerAt (t0 + cleanupDelay prod)) cid).isSome = true) :
    scheduleFileCleanupRun prod ledgerAt files cid t0
      = (t0 + cleanupDelay prod + cleanupRetryDelay prod, files) ∧
    cleanupRetryDelay true = 2 * 60 * 1000 ∧
    cleanupRetryDelay false = 10 * 60 * 1000 := by
  refine ⟨?_, rfl, rfl⟩
  simp [scheduleFileCleanupRun, h]

/-- Witness for the amended C2: production profile, entry present at the first
firing; the cleaner is invoked at 300000 + 120000 = 420000. -/
theorem cleanup_defers_once_then_cleans_witness :
    scheduleFileCleanupRun true (fun _ => [("TT25D", rdD)]) [fX] "TT25D" 0 = (420000, [fX]) ∧
    cleanupRetryDelay true = 2 * 60 * 1000 ∧
    cleanupRetryDelay false = 10 * 60 * 1000 :=
  cleanup_defers_once_then_cleans true (fun _ => [("TT25D", rdD)]) [fX] "TT25D" 0 (by decide)

/-! ### C1: cleanup can run while a ledger entry exists -/

/-- Trace of a paid submission TT25F that fails every attempt: `exhState n` is
the state after failure n+1 (entry with retryCount n+1, timer handle n armed). -/
def exhState : Nat → Sys
  | 0 => (sendEmailsWithRetry sys0 false fdX [fX] "TT25F" (some piX) 0 1000).sys
  | n + 1 =>
      let s := exhState n
      (sendEmailsWithRetry { s with timers := s.timers.filter (fun u => u.tid ≠ n) }
        false fdX [fX] "TT25F" (some piX) (n + 1) (1000 + 30000 * (n + 1))).sys

/-- The sixth attempt: timer handle 4 fires and the attempt fails at
retryCount 5 = maxRetries. -/
def exhOut : SendOut :=
  sendEmailsWithRetry
    { exhState 4 with timers := (exhState 4).timers.filter (fun u => u.tid ≠ 4) }
    false fdX [fX] "TT25F" (some piX) 5 1200000

/-- **C1 counterexample**: on retry exhaustion (sixth failure) the code invokes
`cleanupFiles` on the stored files (line 190) while the ledger entry for the
identity is still present — the exhaustion path never removes the entry (only
the sweeper will, later), so the attachment cleaner runs with a live ledger
entry for TT25F. -/
theorem exhaustion_cleans_with_live_entry :
    exhOut.cleanedNow = [fX] ∧
    (lookupL exhOut.sys.pendingEmailRetries "TT25F").isSome = true := by
  exact ⟨by decide, by decide⟩

def rdW : RetryData := ⟨fdX, [fY], "TT25W", piX, 2, 0, 3⟩

def sysW : Sys := ⟨[("TT25W", rdW)], [], 4⟩

/-- **C1 amended**: only the Cleanup Scheduler's *first* firing is guarded by
the ledger: if it invokes the cleaner at once, no entry existed at that moment.
The other paths are unguarded: the retry-exhaustion path hands the files to
`cleanupFiles` while leaving the state — the live entry included — untouched,
and a deferred cleanup firing invokes the cleaner without rechecking (see the
C2 theorems); the Expiry Sweeper invokes the cleaner exactly on files of
entries that are expired and removed in that same run. -/
theorem cleaner_invocation_guards :
    (∀ (prod : Bool) (ledgerAt : Nat → Ledger) (files : List FileRef) (cid : String) (t0 : Nat),
      (scheduleFileCleanupRun prod ledgerAt files cid t0).1 = t0 + cleanupDelay prod →
      lookupL (ledgerAt (t0 + cleanupDelay prod)) cid = none) ∧
    (∀ (s : Sys) (fd : FormData) (files : List FileRef) (cid : String) (p : PaymentInfo)
        (rc now : Nat), maxRetries ≤ rc →
      (sendEmailsWithRetry s false fd files cid (some p) rc now).cleanedNow
          = (if files.isEmpty then [] else files) ∧
      (sendEmailsWithRetry s false fd files cid (some p) rc now).sys = s) ∧
    (∀ (s : Sys) (now : Nat) (f : FileRef), f ∈ (cleanupOldRetries s now).2.2 →
      ∃ cid rd, (cid, rd) ∈ s.pendingEmailRetries ∧ f ∈ rd.files ∧
        expiredB now (cid, rd) = true) := by
  refine ⟨?_, ?_, ?_⟩
  · intro prod ledgerAt files cid t0 h
    cases hl : lookupL (ledgerAt (t0 + cleanupDelay prod)) cid with
    | none => rfl
    | some v =>
        exfalso
        rw [show scheduleFileCleanupRun prod ledgerAt files cid t0
            = (t0 + cleanupDelay prod + cleanupRetryDelay prod, files) from by
          simp [scheduleFileCleanupRun, hl]] at h
        simp only at h
        cases prod <;> simp [cleanupDelay, cleanupRetryDelay] at h
  · intro s fd files cid p rc now h
    have hn : ¬ rc < maxRetries := Nat.not_lt.mpr h
    exact ⟨by simp [sendEmailsWithRetry, hn], by simp [sendEmailsWithRetry, hn]⟩
  · intro s now f hf
    have hf' : f ∈ ((s.pendingEmailRetries.filter (expiredB now)).map
        (fun p => p.2.files)).flatten := hf
    obtain ⟨l, hl, hfl⟩ := List.mem_flatten.mp hf'
    obtain ⟨p, hp, rfl⟩ := List.mem_map.mp hl
    have hp' := List.mem_filter.mp hp
    exact ⟨p.1, p.2, by simpa using hp'.1, hfl, hp'.2⟩

/-- Witness for the amended C1: an immediate first-firing cleanup implies no
entry; the exhaustion path cleans with the state untouched; a file cleaned by
the sweeper belongs to an expired stored entry. -/
theorem cleaner_invocation_guards_witness :
    lookupL ((fun _ => ([] : Ledger)) (0 + cleanupDelay true)) "TT25G" = none ∧
    ((sendEmailsWithRetry sys0 false fdX [fX] "TT25G" (some piX) 5 999).cleanedNow
        = (if ([fX] : List FileRef).isEmpty then [] else [fX]) ∧
      (sendEmailsWithRetry sys0 false fdX [fX] "TT25G" (some piX) 5 999).sys = sys0) ∧
    (∃ cid rd, (cid, rd) ∈ sysW.pendingEmailRetries ∧ fY ∈ rd.files ∧
      expiredB 2000000 (cid, rd) = true) := by
  refine ⟨?_, ?_, ?_⟩
  · exact cleaner_invocation_guards.1 true (fun _ => []) [fX] "TT25G" 0 (by decide)
  · exact cleaner_invocation_guards.2.1 sys0 fdX [fX] "TT25G" piX 5 999 (by decide)
  · exact cleaner_invocation_guards.2.2 sysW 2000000 fY (by decide)

/-! ### C4: the purge deadline is creation + 35 minutes, not + 30 minutes -/

def sweepFold (ts : List Nat) (s : Sys) : Sys :=
  ts.foldl (fun a t => (cleanupOldRetries a t).1) s

def rdE : RetryData := ⟨fdX, [fX], "TT25E", piX, 1, 0, 7⟩

def sysE : Sys := ⟨[("TT25E", rdE)], [⟨7, "TT25E", fdX, [fX], piX, 1, 30000⟩], 8⟩

/-- State of `sysE` after the sweeper ran at every 5-minute tick up to and
including t0 + 30min = 1800000. -/
def sweptE : Sys := sweepFold [300000, 600000, 900000, 1200000, 1500000, 1800000] sysE

/-- **C4 counterexample**: entry created at t0 = 0; the sweeper runs at every
5-minute tick 300000, 600000, ..., 1800000 — every scheduled run up to and
including t0 + 30min — yet the entry is still present, because the purge
condition `now - createdAt > maxAge` is strict.  Nothing purges the entry at
or before t0 + 30 minutes. -/
theorem not_purged_by_thirty_minutes :
    (lookupL sweptE.pendingEmailRetries "TT25E").isSome = true := by
  decide

/-- **C4 amended**: a ledger entry still present once its age exceeds maxAge is
purged at the first scheduled sweeper tick strictly after
`createdAt + maxAge`, which is at most `createdAt + maxAge + sweepPeriod`
(35 minutes after creation): that run cancels the entry's timer, removes it
from the ledger and hands its stored files to the attachment cleaner.  The
claimed `t0 + 30min` deadline itself is never met, since the age test is
strict and the sweeper runs only every `sweepPeriod`. -/
theorem purge_within_period_after_expiry (s : Sys) (cid : String) (rd : RetryData)
    (hn : keysNodup s.pendingEmailRetries)
    (h : lookupL s.pendingEmailRetries cid = some rd) :
    ∃ T, T % sweepPeriod = 0 ∧ rd.createdAt + maxAge < T ∧
      T ≤ rd.createdAt + maxAge + sweepPeriod ∧
      lookupL (cleanupOldRetries s T).1.pendingEmailRetries cid = none ∧
      rd.timeoutId ∈ (cleanupOldRetries s T).2.1 ∧
      (∀ t ∈ (cleanupOldRetries s T).1.timers, t.tid ≠ rd.timeoutId) ∧
      (∀ f ∈ rd.files, f ∈ (cleanupOldRetries s T).2.2) := by
  have hP : sweepPeriod = 300000 := rfl
  have hlt : rd.createdAt + maxAge
      < ((rd.createdAt + maxAge) / sweepPeriod + 1) * sweepPeriod := by
    rw [hP]
    omega
  have hle : ((rd.createdAt + maxAge) / sweepPeriod + 1) * sweepPeriod
      ≤ rd.createdAt + maxAge + sweepPeriod := by
    rw [hP]
    omega
  refine ⟨((rd.createdAt + maxAge) / sweepPeriod + 1) * sweepPeriod,
    Nat.mul_mod_left _ _, hlt, hle, ?_, ?_, ?_, ?_⟩
  all_goals
    have hexp : expiredB (((rd.createdAt + maxAge) / sweepPeriod + 1) * sweepPeriod)
        (cid, rd) = true := by
      simp only [expiredB, decide_eq_true_eq]
      omega
  · show lookupL (s.pendingEmailRetries.filter
        (fun p => !expiredB (((rd.createdAt + maxAge) / sweepPeriod + 1) * sweepPeriod) p))
        cid = none
    exact lookupL_filter_false hn h (by simp [hexp])
  · show rd.timeoutId ∈ (s.pendingEmailRetries.filter
        (expiredB (((rd.createdAt + maxAge) / sweepPeriod + 1) * sweepPeriod))).map
        (fun p => p.2.timeoutId)
    exact List.mem_map.mpr ⟨(cid, rd), List.mem_filter.mpr ⟨lookupL_mem h, hexp⟩, rfl⟩
  · intro t ht
    have ht' : t ∈ s.timers.filter (fun u => !memNat u.tid
        ((s.pendingEmailRetries.filter
          (expiredB (((rd.createdAt + maxAge) / sweepPeriod + 1) * sweepPeriod))).map
          (fun p => p.2.timeoutId))) := ht
    have hkeep := (List.mem_filter.mp ht').2
    intro heq
    have hin : rd.timeoutId ∈ (s.pendingEmailRetries.filter
        (expiredB (((rd.createdAt + maxAge) / sweepPeriod + 1) * sweepPeriod))).map
        (fun p => p.2.timeoutId) :=
      List.mem_map.mpr ⟨(cid, rd), List.mem_filter.mpr ⟨lookupL_mem h, hexp⟩, rfl⟩
    rw [heq, memNat_iff.mpr hin] at hkeep
    simp at hkeep
  · intro f hf
    show f ∈ ((s.pendingEmailRetries.filter
        (expiredB (((rd.createdAt + maxAge) / sweepPeriod + 1) * sweepPeriod))).map
        (fun p => p.2.files)).flatten
    exact List.mem_flatten.mpr
      ⟨rd.files, List.mem_map.mpr ⟨(cid, rd),
        List.mem_filter.mpr ⟨lookupL_mem h, hexp⟩, rfl⟩, hf⟩

/-- Witness for the amended C4 at the concrete state `sysE`. -/
theorem purge_within_period_after_expiry_witness :
    ∃ T, T % sweepPeriod = 0 ∧ rdE.createdAt + maxAge < T ∧
      T ≤ rdE.createdAt + maxAge + sweepPeriod ∧
      lookupL (cleanupOldRetries sysE T).1.pendingEmailRetries "TT25E" = none ∧
      rdE.timeoutId ∈ (cleanupOldRetries sysE T).2.1 ∧
      (∀ t ∈ (cleanupOldRetries sysE T).1.timers, t.tid ≠ rdE.timeoutId) ∧
      (∀ f ∈ rdE.files, f ∈ (cleanupOldRetries sysE T).2.2) :=
  purge_within_period_after_expiry sysE "TT25E" rdE
    (by unfold keysNodup; decide) (by decide)
